import Mathlib

/-!
# nimage: the transcode-cache pipeline of `main.go`

A shallow embedding of the two HTTP handlers of `main.go` (`imageHandler`,
`cacheClearHandler`) over an explicit file-system state.

Modelling conventions.

* The file system is an association list from canonical paths (lists of
  component names, the root directory being `[]`) to nodes. Path strings are
  resolved lexically against the working directory of the process; there are
  no symbolic links. Regular files carry a read and a write permission,
  directories a write permission.
* A request is a plain `GET` without conditional or range headers; only
  `r.URL.Path` and the parsed query are visible to the handlers.
* The codec and sniffing libraries (`http.DetectContentType`, `jpeg.Decode`,
  `png.Decode`, `webp.Encode`) are parameters, bundled in `Lib`.
* The calls into `os`, `path/filepath` and `net/http` follow the documented
  behaviour of those packages.
-/

namespace Nimage

/-! ## Data model -/

abbrev Bytes := List UInt8

/-- A canonical absolute path: the component names below the root. -/
abbrev Path := List String

/-- A node of the file system. -/
inductive Node where
  | file (contents : Bytes) (readable : Bool) (writable : Bool)
  | dir (writable : Bool)
  deriving DecidableEq, Repr

/-- The file-system state: the first entry for a path is the node stored there. -/
abbrev FS := List (Path × Node)

/-- The flags of `main.go` (lines 17 to 21), with the working directory of the process. -/
structure Config where
  quality : Int
  cacheFolder : String
  cacheClearKey : String
  cwd : Path
  deriving DecidableEq, Repr

/-- The part of `*http.Request` the handlers read. -/
structure Request where
  urlPath : String
  query : List (String × String)
  deriving DecidableEq, Repr

/-- What a handler leaves in the `http.ResponseWriter`. -/
inductive Response where
  /-- Status 200 with the bytes of a served file. -/
  | file (contentType : String) (body : Bytes)
  /-- A plain-text reply with the given status. -/
  | text (status : Nat) (body : String)
  /-- Status 301 to a relative location. -/
  | redirect (location : String)
  /-- Status 200 with the HTML listing of a directory. -/
  | dirList (dir : Path)
  deriving DecidableEq, Repr

/-- The external libraries called by `imageHandler`. `webpEncode` gives the bytes it
wrote to the destination and whether it returned without error. -/
structure Lib (Img : Type) where
  detectContentType : Bytes → String
  jpegDecode : Bytes → Option Img
  pngDecode : Bytes → Option Img
  webpEncode : Img → Int → Bytes × Bool

/-! ## Strings and paths -/

/-- The function `strings.HasPrefix`. -/
def hasPrefix (s pre : String) : Bool := pre.data.isPrefixOf s.data

/-- The function `strings.HasSuffix`. -/
def hasSuffix (s suf : String) : Bool := suf.data.reverse.isPrefixOf s.data.reverse

/-- Whether `sub` occurs in the characters `s`. -/
def containsChars (sub : List Char) : List Char → Bool
  | [] => sub.isEmpty
  | c :: cs => sub.isPrefixOf (c :: cs) || containsChars sub cs

/-- The function `strings.Contains`. -/
def containsSub (s sub : String) : Bool := containsChars sub.data s.data

/-- First segment and remaining segments of a character list cut at every `sep`. -/
def splitAt (sep : Char → Bool) : List Char → List Char × List (List Char)
  | [] => ([], [])
  | c :: cs =>
    if sep c then ([], (splitAt sep cs).1 :: (splitAt sep cs).2)
    else (c :: (splitAt sep cs).1, (splitAt sep cs).2)

/-- All segments of a character list cut at every `sep` (empty segments kept). -/
def segments (sep : Char → Bool) (s : List Char) : List (List Char) :=
  (splitAt sep s).1 :: (splitAt sep s).2

def isSlash (c : Char) : Bool := c = '/'

/-- The predicate `isSlashRune` of `net/http`. -/
def isSlashRune (c : Char) : Bool := c = '/' || c = '\\'

/-- The function `containsDotDot` of `net/http`: some element between slashes is `..`
(the empty fields that `strings.FieldsFunc` drops are never `..`). -/
def containsDotDot (v : String) : Bool :=
  if !containsSub v ".." then false
  else (segments isSlashRune v.data).any (fun ent => ent = ['.', '.'])

/-- One step of lexical path resolution. -/
def stepPath (acc : Path) (seg : List Char) : Path :=
  if seg = [] ∨ seg = ['.'] then acc
  else if seg = ['.', '.'] then acc.dropLast
  else acc ++ [String.mk seg]

/-- Where a path string leads: the canonical path, and whether the string requires
a directory there (it ends in a slash, in `.` or in `..`). -/
structure Target where
  path : Path
  dirOnly : Bool
  deriving DecidableEq, Repr

/-- Lexical resolution of a path string against the working directory. -/
def resolve (cwd : Path) (name : String) : Target :=
  let segs := segments isSlash name.data
  { path := segs.foldl stepPath (if name.data.head? = some '/' then [] else cwd)
    dirOnly := segs.getLast? = some [] ∨ segs.getLast? = some ['.']
      ∨ segs.getLast? = some ['.', '.'] }

/-- Scan of `filepath.Ext` from the end of the name. -/
def extAux : List Char → List Char → List Char
  | [], _ => []
  | c :: rest, acc =>
    if c = '/' then [] else if c = '.' then '.' :: acc else extAux rest (c :: acc)

/-- The function `filepath.Ext`: the suffix of the last element from its final dot. -/
def filepathExt (name : String) : String := String.mk (extAux name.data.reverse [])

/-- Drop the last element of a reversed name, keeping the separator. -/
def dirAux : List Char → List Char
  | [] => []
  | c :: rest => if c = '/' then c :: rest else dirAux rest

/-- The function `filepath.Dir`, before its final `Clean` (which does not change where
the result resolves): everything up to the last separator, or `.` without one. -/
def filepathDir (name : String) : String :=
  match dirAux name.data.reverse with
  | [] => "."
  | d => String.mk d.reverse

/-- The function `path.Base`. -/
def pathBase (p : String) : String :=
  if p = "" then "."
  else
    let stripped := p.data.reverse.dropWhile (fun c => c = '/')
    let base := (stripped.takeWhile (fun c => c ≠ '/')).reverse
    if base = [] then "/" else String.mk base

/-- The built-in table of `mime.TypeByExtension`; the empty string when unknown. -/
def typeByExtension (ext : String) : String :=
  let lookup (e : String) : String :=
    if e = ".avif" then "image/avif"
    else if e = ".css" then "text/css; charset=utf-8"
    else if e = ".gif" then "image/gif"
    else if e = ".htm" then "text/html; charset=utf-8"
    else if e = ".html" then "text/html; charset=utf-8"
    else if e = ".jpeg" then "image/jpeg"
    else if e = ".jpg" then "image/jpeg"
    else if e = ".js" then "text/javascript; charset=utf-8"
    else if e = ".json" then "application/json"
    else if e = ".mjs" then "text/javascript; charset=utf-8"
    else if e = ".pdf" then "application/pdf"
    else if e = ".png" then "image/png"
    else if e = ".svg" then "image/svg+xml"
    else if e = ".wasm" then "application/wasm"
    else if e = ".webp" then "image/webp"
    else if e = ".xml" then "text/xml; charset=utf-8"
    else ""
  if lookup ext = "" then lookup (String.mk (ext.data.map Char.toLower)) else lookup ext

/-! ## File-system operations -/

/-- The node stored at a canonical path, if any. -/
def nodeAt : FS → Path → Option Node
  | [], _ => none
  | (q, n) :: rest, p => if q = p then some n else nodeAt rest p

/-- Whether a writable directory is stored at the path. -/
def dirWritable (fs : FS) (p : Path) : Bool :=
  match nodeAt fs p with
  | some (.dir w) => w
  | _ => false

/-- The errors of `os.Open` that the callers tell apart. -/
inductive OpenErr where
  | notExist
  | notDir
  | permission
  deriving DecidableEq, Repr

/-- An open `*os.File`: a regular file with its contents, or a directory. -/
inductive Handle where
  | file (contents : Bytes)
  | dir (path : Path)
  deriving DecidableEq, Repr

deriving instance DecidableEq for Except

/-- What reading an open file from its start yields. -/
def Handle.contents : Handle → Bytes
  | .file c => c
  | .dir _ => []

/-- The call `os.Stat(name)`: whether it returns without error. -/
def osStat (cwd : Path) (fs : FS) (name : String) : Bool :=
  if name = "" then false
  else
    match nodeAt fs (resolve cwd name).path with
    | none => false
    | some (.dir _) => true
    | some (.file _ _ _) => !(resolve cwd name).dirOnly

/-- The call `os.Open(name)`. -/
def osOpen (cwd : Path) (fs : FS) (name : String) : Except OpenErr Handle :=
  if name = "" then .error .notExist
  else
    match nodeAt fs (resolve cwd name).path with
    | none => .error .notExist
    | some (.dir _) => .ok (.dir (resolve cwd name).path)
    | some (.file c r _) =>
      if (resolve cwd name).dirOnly then .error .notDir
      else if r then .ok (.file c) else .error .permission

/-- The call `file.Read(buffer)` on a fresh zeroed buffer of `size` bytes: the buffer
afterwards, or nothing when `Read` returns an error (a directory, or end of file at
once on an empty file). -/
def fileRead (h : Handle) (size : Nat) : Option Bytes :=
  match h with
  | .dir _ => none
  | .file c =>
    if c = [] then none
    else some (c.take size ++ List.replicate (size - (c.take size).length) 0)

/-- Creation of the missing directories along `segs` below `cur`, as `os.MkdirAll` does;
the state reached and whether every directory exists in the end. -/
def mkdirAllFrom (fs : FS) (cur : Path) : List String → FS × Bool
  | [] => (fs, true)
  | seg :: rest =>
    match nodeAt fs (cur ++ [seg]) with
    | some (.dir _) => mkdirAllFrom fs (cur ++ [seg]) rest
    | some (.file _ _ _) => (fs, false)
    | none =>
      if dirWritable fs cur then
        mkdirAllFrom ((cur ++ [seg], .dir true) :: fs) (cur ++ [seg]) rest
      else (fs, false)

/-- The call `os.MkdirAll(name, 0755)`. -/
def osMkdirAll (cwd : Path) (fs : FS) (name : String) : FS × Bool :=
  mkdirAllFrom fs [] (resolve cwd name).path

/-- Replace the node stored at a path. -/
def setNode (fs : FS) (p : Path) (n : Node) : FS :=
  fs.map (fun e => if e.1 = p then (e.1, n) else e)

/-- The call `os.Create(name)`: the state with an empty file at `name`, or nothing
when it returns an error. -/
def osCreate (cwd : Path) (fs : FS) (name : String) : Option FS :=
  if name = "" then none
  else if (resolve cwd name).dirOnly then none
  else
    match nodeAt fs (resolve cwd name).path with
    | some (.dir _) => none
    | some (.file _ r w) =>
      if w then some (setNode fs (resolve cwd name).path (.file [] r w)) else none
    | none =>
      if dirWritable fs (resolve cwd name).path.dropLast then
        some (((resolve cwd name).path, .file [] true true) :: fs)
      else none

/-- Bytes written through the open cache file are appended to its contents. -/
def fileWrite (cwd : Path) (fs : FS) (name : String) (data : Bytes) : FS :=
  fs.map (fun e =>
    if e.1 = (resolve cwd name).path then
      match e.2 with
      | .file c r w => (e.1, .file (c ++ data) r w)
      | .dir w => (e.1, .dir w)
    else e)

/-- An entry cannot be unlinked when its parent directory is not writable. -/
def blocked (fs : FS) (p : Path) : Bool :=
  match nodeAt fs p.dropLast with
  | some (.dir false) => true
  | _ => false

/-- An entry below `root` survives `os.RemoveAll` when something at or below it cannot
be unlinked. -/
def survives (fs : FS) (root q : Path) : Bool :=
  !(root.isPrefixOf q) || fs.any (fun e => q.isPrefixOf e.1 && root.isPrefixOf e.1 && blocked fs e.1)

/-- The function `endsWithDot` of package `os`. -/
def endsWithDot (name : String) : Bool :=
  name = "." || hasSuffix name "/."

/-- The call `os.RemoveAll(name)`: the state afterwards and whether it returned without
error. It removes what it can and reports the first failure. -/
def osRemoveAll (cwd : Path) (fs : FS) (name : String) : FS × Bool :=
  if name = "" then (fs, true)
  else if endsWithDot name then (fs, false)
  else
    (fs.filter (fun e => survives fs (resolve cwd name).path e.1),
      !(fs.any (fun e => (resolve cwd name).path.isPrefixOf e.1 && blocked fs e.1)))

/-! ## net/http -/

/-- The call `http.Error(w, msg, code)`. -/
def httpError (msg : String) (code : Nat) : Response := .text code (msg ++ "\n")

/-- The function `toHTTPError` of `net/http`, after `mapOpenError`. -/
def toHTTPError : OpenErr → Response
  | .notExist => httpError "404 page not found" 404
  | .notDir => httpError "404 page not found" 404
  | .permission => httpError "403 Forbidden" 403

/-- The function `serveContent` of `net/http` for a request without conditional or
range headers: the Content-Type already set on the writer wins, then the extension of
the name, then sniffing the first 512 bytes. -/
def serveContent {Img : Type} (lib : Lib Img) (header : Option String) (name : String)
    (content : Bytes) : Response :=
  match header with
  | some t => .file t content
  | none =>
    if typeByExtension (filepathExt name) = "" then
      .file (lib.detectContentType (content.take 512)) content
    else .file (typeByExtension (filepathExt name)) content

/-- The call `strings.TrimSuffix(name, "/")`. -/
def trimSlash (name : String) : String :=
  if hasSuffix name "/" then String.mk name.data.dropLast else name

/-- The call `http.ServeFile(w, r, name)`; `header` is the Content-Type set on the
writer before the call. -/
def serveFile {Img : Type} (lib : Lib Img) (cwd : Path) (fs : FS) (r : Request)
    (header : Option String) (name : String) : Response :=
  if containsDotDot r.urlPath then httpError "invalid URL path" 400
  else if hasSuffix r.urlPath "/index.html" then .redirect "./"
  else
    match osOpen cwd fs name with
    | .error e => toHTTPError e
    | .ok (.file c) => serveContent lib header name c
    | .ok (.dir d) =>
      if r.urlPath = "" ∨ r.urlPath.data.getLast? ≠ some '/' then
        .redirect (pathBase r.urlPath ++ "/")
      else
        match osOpen cwd fs (trimSlash name ++ "/index.html") with
        | .ok (.file c) => serveContent lib header (trimSlash name ++ "/index.html") c
        | .ok (.dir d2) => .dirList d2
        | .error _ => .dirList d

/-- The call `r.URL.Query().Get(key)`: the first value of the key, or the empty string. -/
def queryGet (query : List (String × String)) (key : String) : String :=
  match query with
  | [] => ""
  | (k, v) :: rest => if k = key then v else queryGet rest key

/-! ## The handlers of `main.go` -/

/-- Line 25: the cache key of a resource path. -/
def cachePath (cfg : Config) (filePath : String) : String :=
  cfg.cacheFolder ++ filePath ++ ".webp"

/-- Lines 67 to 91 of `imageHandler`: after the decode, create the cache directory and
the cache file, encode into it and serve it. `img` is nothing when the decoder failed. -/
def writeCache {Img : Type} (lib : Lib Img) (cfg : Config) (fs : FS) (r : Request)
    (img : Option Img) : Response × FS :=
  match img with
  | none => (httpError "Error processing image" 500, fs)
  | some im =>
    match osMkdirAll cfg.cwd fs (filepathDir (cachePath cfg r.urlPath)) with
    | (fs1, false) => (httpError "Error creating cache directory" 500, fs1)
    | (fs1, true) =>
      match osCreate cfg.cwd fs1 (cachePath cfg r.urlPath) with
      | none => (httpError "Error creating cache file" 500, fs1)
      | some fs2 =>
        match lib.webpEncode im cfg.quality with
        | (written, false) =>
          (httpError "Error encoding image" 500,
            fileWrite cfg.cwd fs2 (cachePath cfg r.urlPath) written)
        | (written, true) =>
          (serveFile lib cfg.cwd (fileWrite cfg.cwd fs2 (cachePath cfg r.urlPath) written) r
              (some "image/webp") (cachePath cfg r.urlPath),
            fileWrite cfg.cwd fs2 (cachePath cfg r.urlPath) written)

/-- Lines 53 to 91 of `imageHandler`: the switch on the sniffed content type. The
decoders read the whole file from its start. -/
def dispatch {Img : Type} (lib : Lib Img) (cfg : Config) (fs : FS) (r : Request)
    (contentType : String) (contents : Bytes) : Response × FS :=
  if containsSub contentType "jpeg" then
    writeCache lib cfg fs r (lib.jpegDecode contents)
  else if containsSub contentType "png" then
    writeCache lib cfg fs r (lib.pngDecode contents)
  else if hasPrefix contentType "image/webp" then
    (serveFile lib cfg.cwd fs r none r.urlPath, fs)
  else (httpError "Unsupported file type" 400, fs)

/-- Lines 32 to 91 of `imageHandler`: the path taken when `os.Stat` on the cache key
returned an error. Every error of `os.Open` is answered with 404; an error of the first
`Read` with 500. The `Seek` back to the start does not fail on an open file. -/
def cacheMiss {Img : Type} (lib : Lib Img) (cfg : Config) (fs : FS) (r : Request) :
    Response × FS :=
  match osOpen cfg.cwd fs r.urlPath with
  | .error _ => (httpError "File not found" 404, fs)
  | .ok file =>
    match fileRead file 512 with
    | none => (httpError "Error reading file" 500, fs)
    | some buffer => dispatch lib cfg fs r (lib.detectContentType buffer) file.contents

/-- The handler `imageHandler` (lines 23 to 92): the response and the file system
afterwards. -/
def imageHandler {Img : Type} (lib : Lib Img) (cfg : Config) (fs : FS) (r : Request) :
    Response × FS :=
  if osStat cfg.cwd fs (cachePath cfg r.urlPath) then
    (serveFile lib cfg.cwd fs r none (cachePath cfg r.urlPath), fs)
  else cacheMiss lib cfg fs r

/-- The handler `cacheClearHandler` (lines 94 to 109). -/
def cacheClearHandler (cfg : Config) (fs : FS) (r : Request) : Response × FS :=
  if queryGet r.query "key" ≠ cfg.cacheClearKey then
    (httpError "Invalid cache clear key" 403, fs)
  else
    match osRemoveAll cfg.cwd fs cfg.cacheFolder with
    | (fs1, false) => (httpError "Error clearing cache" 500, fs1)
    | (fs1, true) => (.text 200 "Cache cleared successfully", fs1)

/-! ## A concrete library instance for evaluation -/

/-- A small instance of the library interface: sniffing by the JPEG, PNG and WebP
signatures of `http.DetectContentType`, a decoder that accepts any file with the right
signature and keeps its bytes, and an encoder that prefixes a RIFF tag and fails after
the tag on an image of more than eight bytes. -/
def sampleLib : Lib Bytes where
  detectContentType := fun b =>
    if [0xFF, 0xD8, 0xFF].isPrefixOf b then "image/jpeg"
    else if [0x89, 0x50, 0x4E, 0x47, 0x0D, 0x0A, 0x1A, 0x0A].isPrefixOf b then "image/png"
    else if [0x52, 0x49, 0x46, 0x46].isPrefixOf b
        && [0x57, 0x45, 0x42, 0x50, 0x56, 0x50].isPrefixOf (b.drop 8) then "image/webp"
    else "application/octet-stream"
  jpegDecode := fun b => if [0xFF, 0xD8, 0xFF].isPrefixOf b then some b else none
  pngDecode := fun b =>
    if [0x89, 0x50, 0x4E, 0x47, 0x0D, 0x0A, 0x1A, 0x0A].isPrefixOf b then some b else none
  webpEncode := fun img _ =>
    if img.length ≤ 8 then ([0x52, 0x49, 0x46, 0x46] ++ img, true)
    else ([0x52, 0x49, 0x46, 0x46], false)

/-- The default flags of `main.go`, run from the directory `/srv`. -/
def defaultConfig : Config :=
  { quality := 90, cacheFolder := "./cache", cacheClearKey := "defaultKey", cwd := ["srv"] }

/-! ## Sample states for evaluation -/

def jpegBytes : Bytes := [0xFF, 0xD8, 0xFF, 0xE0, 0x00, 0x10]

def webpBytes : Bytes :=
  [0x52, 0x49, 0x46, 0x46, 0x1A, 0x00, 0x00, 0x00, 0x57, 0x45, 0x42, 0x50, 0x56, 0x50, 0x38, 0x20]

def textBytes : Bytes := [0x68, 0x65, 0x6C, 0x6C, 0x6F, 0x0A]

/-- The root, the working directory `/srv` with its cache folder, and a cache entry for
`/photo.jpg` whose source is gone. -/
def fsCachedOnly : FS :=
  [([], .dir true), (["srv"], .dir true), (["srv", "cache"], .dir true),
    (["srv", "cache", "photo.jpg.webp"], .file webpBytes true true)]

/-- As `fsCachedOnly`, the cached request path being `/index.html`. -/
def fsCachedIndex : FS :=
  [([], .dir true), (["srv"], .dir true), (["srv", "cache"], .dir true),
    (["srv", "cache", "index.html.webp"], .file webpBytes true true)]

/-- An empty cache and four sources: a WebP file, a text file, an empty file and a
JPEG file that may not be read. -/
def fsSources : FS :=
  [([], .dir true), (["srv"], .dir true), (["srv", "cache"], .dir true),
    (["pic.webp"], .file webpBytes true true),
    (["notes.txt"], .file textBytes true true),
    (["empty.txt"], .file [] true true),
    (["secret.jpg"], .file jpegBytes false true)]

/-- A JPEG file too large for the sample encoder. -/
def bigJpegBytes : Bytes := [0xFF, 0xD8, 0xFF, 0xE0, 0x00, 0x10, 0x4A, 0x46, 0x49, 0x46]

/-- An empty cache and two JPEG sources, `/photo.jpg` and the larger `/big.jpg`. -/
def fsJpegs : FS :=
  [([], .dir true), (["srv"], .dir true), (["srv", "cache"], .dir true),
    (["photo.jpg"], .file jpegBytes true true),
    (["big.jpg"], .file bigJpegBytes true true)]

/-- An empty cache and two JPEG sources stored as `/index.html` and `/a/index.html`. -/
def fsIndexJpeg : FS :=
  [([], .dir true), (["srv"], .dir true), (["srv", "cache"], .dir true),
    (["index.html"], .file jpegBytes true true), (["a"], .dir true),
    (["a", "index.html"], .file bigJpegBytes true true)]

/-- The JPEG source `/photo.jpg` together with its cache entry. -/
def fsCachedPhoto : FS :=
  [(["srv", "cache", "photo.jpg.webp"], .file ([0x52, 0x49, 0x46, 0x46] ++ jpegBytes) true true),
    ([], .dir true), (["srv"], .dir true), (["srv", "cache"], .dir true),
    (["photo.jpg"], .file jpegBytes true true)]

/-- The default flags with the secret key set to the empty string (`-cachekey=""`). -/
def emptyKeyConfig : Config :=
  { quality := 90, cacheFolder := "./cache", cacheClearKey := "", cwd := ["srv"] }

/-- The request that clears the cache with the default key. -/
def clearRequest : Request := ⟨"/clearcache", [("key", "defaultKey")]⟩

/-- An empty cache and a WebP source stored as `/index.html`. -/
def fsIndexWebp : FS :=
  [([], .dir true), (["srv"], .dir true), (["srv", "cache"], .dir true),
    (["index.html"], .file webpBytes true true)]

/-! ## Lemmas on paths -/

theorem segments_cons (sep : Char → Bool) (c : Char) (x : List Char) :
    segments sep (c :: x) =
      if sep c then [] :: segments sep x
      else (c :: (splitAt sep x).1) :: (splitAt sep x).2 := by
  unfold segments
  by_cases h : sep c <;> simp [splitAt, h]

theorem segments_slashFree (sep : Char → Bool) (w : List Char)
    (hw : ∀ c ∈ w, sep c = false) : segments sep w = [w] := by
  induction w with
  | nil => simp [segments, splitAt]
  | cons c w ih =>
    have hc : sep c = false := hw c (by simp)
    have ih2 := ih (fun d hd => hw d (by simp [hd]))
    rw [segments_cons]
    simp only [segments] at ih2
    simp only [hc]
    simp at ih2
    simp [ih2.1, ih2.2]

/-- Appending separator-free characters only extends the last segment. -/
theorem segments_append_tail (sep : Char → Bool) (w : List Char)
    (hw : ∀ c ∈ w, sep c = false) (x : List Char) :
    ∃ pre t, segments sep x = pre ++ [t] ∧ segments sep (x ++ w) = pre ++ [t ++ w] := by
  induction x with
  | nil => exact ⟨[], [], by simp [segments, splitAt], by simpa using segments_slashFree sep w hw⟩
  | cons c x ih =>
    obtain ⟨pre, t, h1, h2⟩ := ih
    by_cases hc : sep c
    · refine ⟨[] :: pre, t, ?_, ?_⟩
      · rw [segments_cons]; simp [hc, h1]
      · rw [List.cons_append, segments_cons]; simp [hc, h2]
    · cases pre with
      | nil =>
        refine ⟨[], c :: t, ?_, ?_⟩
        · rw [segments_cons]
          simp only [segments] at h1
          simp at h1
          simp [hc, h1.1, h1.2]
        · rw [List.cons_append, segments_cons]
          simp only [segments] at h2
          simp at h2
          simp [hc, h2.1, h2.2]
      | cons p0 ps =>
        refine ⟨(c :: p0) :: ps, t, ?_, ?_⟩
        · rw [segments_cons]
          simp only [segments] at h1
          simp at h1
          simp [hc, h1.1, h1.2]
        · rw [List.cons_append, segments_cons]
          simp only [segments] at h2
          simp at h2
          simp [hc, h2.1, h2.2]

/-- Cutting at a separator splits the segment list. -/
theorem segments_append_sep (sep : Char → Bool) (s : Char) (hs : sep s = true)
    (x y : List Char) :
    segments sep (x ++ s :: y) = segments sep x ++ segments sep y := by
  induction x with
  | nil => rw [List.nil_append, segments_cons]; simp [hs, segments, splitAt]
  | cons c x ih =>
    rw [List.cons_append, segments_cons, segments_cons]
    by_cases hc : sep c
    · simp [hc, ih]
    · simp only [segments] at ih
      simp at ih
      simp [hc, ih.1, ih.2, segments]

/-! ## Lemmas on the cache key -/

theorem cachePath_data (cfg : Config) (p : String) :
    (cachePath cfg p).data = cfg.cacheFolder.data ++ p.data ++ ['.', 'w', 'e', 'b', 'p'] := by
  simp [cachePath, String.data_append]

theorem cachePath_ne_empty (cfg : Config) (p : String) : cachePath cfg p ≠ "" := by
  intro h
  have := congrArg String.data h
  rw [cachePath_data] at this
  simp at this

theorem webp_slashFree : ∀ c ∈ ['.', 'w', 'e', 'b', 'p'], isSlash c = false := by
  decide

/-- The last segment of a cache key ends in `.webp`. -/
theorem cachePath_segments (cfg : Config) (p : String) :
    ∃ pre t, segments isSlash (cfg.cacheFolder.data ++ p.data) = pre ++ [t] ∧
      segments isSlash (cachePath cfg p).data = pre ++ [t ++ ['.', 'w', 'e', 'b', 'p']] := by
  rw [cachePath_data]
  exact segments_append_tail isSlash _ webp_slashFree _

theorem resolve_cachePath_dirOnly (cwd : Path) (cfg : Config) (p : String) :
    (resolve cwd (cachePath cfg p)).dirOnly = false := by
  obtain ⟨pre, t, _, h2⟩ := cachePath_segments cfg p
  have e1 : t ++ ['.', 'w', 'e', 'b', 'p'] ≠ [] := by simp
  have e2 : t ++ ['.', 'w', 'e', 'b', 'p'] ≠ ['.'] := by
    intro h; have := congrArg List.length h; simp at this
  have e3 : t ++ ['.', 'w', 'e', 'b', 'p'] ≠ ['.', '.'] := by
    intro h; have := congrArg List.length h; simp at this
  simp [resolve, h2, e1, e2, e3]

theorem filepathExt_cachePath (cfg : Config) (p : String) :
    filepathExt (cachePath cfg p) = ".webp" := by
  unfold filepathExt
  rw [cachePath_data]
  simp [extAux]

theorem typeByExtension_webp : typeByExtension ".webp" = "image/webp" := by decide

/-- On a cache key, `os.Stat` succeeds exactly when a node is stored there. -/
theorem osStat_cachePath (cwd : Path) (fs : FS) (cfg : Config) (p : String) :
    osStat cwd fs (cachePath cfg p) = (nodeAt fs (resolve cwd (cachePath cfg p)).path).isSome := by
  unfold osStat
  rw [if_neg (cachePath_ne_empty cfg p), resolve_cachePath_dirOnly]
  cases h : nodeAt fs (resolve cwd (cachePath cfg p)).path with
  | none => rfl
  | some n => cases n <;> rfl

/-- On a cache key, `os.Open` yields the contents of a readable file stored there. -/
theorem osOpen_cachePath (cwd : Path) (fs : FS) (cfg : Config) (p : String) (c : Bytes)
    (w : Bool) (h : nodeAt fs (resolve cwd (cachePath cfg p)).path = some (.file c true w)) :
    osOpen cwd fs (cachePath cfg p) = .ok (.file c) := by
  unfold osOpen
  rw [if_neg (cachePath_ne_empty cfg p), h, resolve_cachePath_dirOnly]
  rfl

/-- Serving a readable cache file: status 200, type `image/webp`, the stored bytes. -/
theorem serveFile_cachePath {Img : Type} (lib : Lib Img) (cfg : Config) (fs : FS)
    (r : Request) (header : Option String) (c : Bytes) (w : Bool)
    (hdd : containsDotDot r.urlPath = false)
    (hix : hasSuffix r.urlPath "/index.html" = false)
    (hh : header = none ∨ header = some "image/webp")
    (h : nodeAt fs (resolve cfg.cwd (cachePath cfg r.urlPath)).path = some (.file c true w)) :
    serveFile lib cfg.cwd fs r header (cachePath cfg r.urlPath) = .file "image/webp" c := by
  unfold serveFile
  simp only [hdd, hix, osOpen_cachePath cfg.cwd fs cfg r.urlPath c w h]
  rcases hh with rfl | rfl
  · simp [serveContent, filepathExt_cachePath, typeByExtension_webp]
  · simp [serveContent]

/-- The cache-hit branch (lines 27 to 30) on a readable cache file. -/
theorem imageHandler_hit {Img : Type} (lib : Lib Img) (cfg : Config) (fs : FS)
    (r : Request) (c : Bytes) (w : Bool)
    (hdd : containsDotDot r.urlPath = false)
    (hix : hasSuffix r.urlPath "/index.html" = false)
    (h : nodeAt fs (resolve cfg.cwd (cachePath cfg r.urlPath)).path = some (.file c true w)) :
    imageHandler lib cfg fs r = (.file "image/webp" c, fs) := by
  unfold imageHandler
  rw [osStat_cachePath, h]
  simp [serveFile_cachePath lib cfg fs r none c w hdd hix (Or.inl rfl) h]

/-- The cache-miss branch on a JPEG or PNG source that decodes: lines 67 to 91 run on
the decoded image. -/
theorem imageHandler_decoded {Img : Type} (lib : Lib Img) (cfg : Config) (fs : FS)
    (r : Request) (contents buffer : Bytes) (img : Img)
    (hnc : nodeAt fs (resolve cfg.cwd (cachePath cfg r.urlPath)).path = none)
    (hsrc : osOpen cfg.cwd fs r.urlPath = .ok (.file contents))
    (hbuf : fileRead (.file contents) 512 = some buffer)
    (hdec : (containsSub (lib.detectContentType buffer) "jpeg" = true ∧
          lib.jpegDecode contents = some img) ∨
        (containsSub (lib.detectContentType buffer) "jpeg" = false ∧
          containsSub (lib.detectContentType buffer) "png" = true ∧
          lib.pngDecode contents = some img)) :
    imageHandler lib cfg fs r = writeCache lib cfg fs r (some img) := by
  unfold imageHandler
  rw [osStat_cachePath, hnc]
  rcases hdec with ⟨hj, hd⟩ | ⟨hj, hp, hd⟩
  · simp [cacheMiss, hsrc, hbuf, dispatch, hj, hd, Handle.contents]
  · simp [cacheMiss, hsrc, hbuf, dispatch, hj, hp, hd, Handle.contents]

/-! ## Claims on the read-only paths of `imageHandler` -/

/-- C2 (amended): for every resource path without a `..` element that does not end in
`/index.html`, and every file-system state with a readable regular file at the cache key,
`imageHandler` returns status 200 with type `image/webp` and that file's bytes and leaves
the file system unchanged; the source file is never consulted, so every other state with
the same cache file gives the same response. -/
theorem cache_hit_serves_entry {Img : Type} (lib : Lib Img) (cfg : Config) (fs : FS)
    (r : Request) (c : Bytes) (w : Bool)
    (hdd : containsDotDot r.urlPath = false)
    (hix : hasSuffix r.urlPath "/index.html" = false)
    (h : nodeAt fs (resolve cfg.cwd (cachePath cfg r.urlPath)).path = some (.file c true w)) :
    imageHandler lib cfg fs r = (.file "image/webp" c, fs) ∧
      ∀ fs2 w2, nodeAt fs2 (resolve cfg.cwd (cachePath cfg r.urlPath)).path
          = some (.file c true w2) →
        (imageHandler lib cfg fs2 r).1 = (imageHandler lib cfg fs r).1 := by
  refine ⟨imageHandler_hit lib cfg fs r c w hdd hix h, ?_⟩
  intro fs2 w2 h2
  rw [imageHandler_hit lib cfg fs2 r c w2 hdd hix h2, imageHandler_hit lib cfg fs r c w hdd hix h]

theorem cache_hit_serves_entry_witness :
    imageHandler sampleLib defaultConfig fsCachedOnly ⟨"/photo.jpg", []⟩
      = (.file "image/webp" webpBytes, fsCachedOnly) :=
  (cache_hit_serves_entry sampleLib defaultConfig fsCachedOnly ⟨"/photo.jpg", []⟩ webpBytes true
    (by decide) (by decide) (by decide)).1

/-- C2 as stated fails: a readable file is stored at the cache key of `/index.html`, yet
the response is the redirect of `http.ServeFile`, not that file's bytes. -/
theorem cache_hit_index_redirects :
    nodeAt fsCachedIndex (resolve defaultConfig.cwd (cachePath defaultConfig "/index.html")).path
        = some (.file webpBytes true true) ∧
      (imageHandler sampleLib defaultConfig fsCachedIndex ⟨"/index.html", []⟩).1
        = .redirect "./" ∧
      (imageHandler sampleLib defaultConfig fsCachedIndex ⟨"/index.html", []⟩).1
        ≠ .file "image/webp" webpBytes := by
  decide

/-- C3 (amended): for every resource path without a `..` element that does not end in
`/index.html`, with nothing stored at the cache key, whose source opens as a regular file
sniffed as `image/webp`, `imageHandler` returns status 200 with the source bytes unchanged
and the file system after the call equals the one before (no cache entry, no decode or
encode). -/
theorem pass_through_serves_source {Img : Type} (lib : Lib Img) (cfg : Config) (fs : FS)
    (r : Request) (contents buffer : Bytes)
    (hdd : containsDotDot r.urlPath = false)
    (hix : hasSuffix r.urlPath "/index.html" = false)
    (hnc : nodeAt fs (resolve cfg.cwd (cachePath cfg r.urlPath)).path = none)
    (hsrc : osOpen cfg.cwd fs r.urlPath = .ok (.file contents))
    (hbuf : fileRead (.file contents) 512 = some buffer)
    (hct : lib.detectContentType buffer = "image/webp") :
    ∃ ct, imageHandler lib cfg fs r = (.file ct contents, fs) := by
  have hj : containsSub "image/webp" "jpeg" = false := by decide
  have hp : containsSub "image/webp" "png" = false := by decide
  have hw : hasPrefix "image/webp" "image/webp" = true := by decide
  unfold imageHandler
  rw [osStat_cachePath, hnc]
  simp only [Option.isSome_none, Bool.false_eq_true, if_false, cacheMiss, hsrc, hbuf, hct,
    dispatch, hj, hp, hw, if_true, serveFile, hdd, hix, Handle.contents]
  simp only [serveContent]
  split <;> exact ⟨_, rfl⟩

theorem pass_through_serves_source_witness :
    ∃ ct, imageHandler sampleLib defaultConfig fsSources ⟨"/pic.webp", []⟩
      = (.file ct webpBytes, fsSources) :=
  pass_through_serves_source sampleLib defaultConfig fsSources ⟨"/pic.webp", []⟩ webpBytes
    (webpBytes ++ List.replicate 496 0) (by decide) (by decide) (by decide) (by decide)
    (by rfl) (by rfl)

/-- C3 as stated fails: `/index.html` has no cache entry and holds a WebP file, yet the
response is a redirect and not the source bytes. -/
theorem pass_through_index_redirects :
    nodeAt fsIndexWebp (resolve defaultConfig.cwd (cachePath defaultConfig "/index.html")).path
        = none ∧
      osOpen defaultConfig.cwd fsIndexWebp "/index.html" = .ok (.file webpBytes) ∧
      (fileRead (.file webpBytes) 512).map sampleLib.detectContentType = some "image/webp" ∧
      imageHandler sampleLib defaultConfig fsIndexWebp ⟨"/index.html", []⟩
        = (.redirect "./", fsIndexWebp) :=
  ⟨by decide, by decide, by rfl, by decide⟩

/-- C6 (amended): for every resource path at which no file exists and at whose cache key
nothing is stored, `imageHandler` answers 404 `File not found` and leaves the file system
unchanged, so no cache entry is created. -/
theorem missing_source_not_found {Img : Type} (lib : Lib Img) (cfg : Config) (fs : FS)
    (r : Request)
    (hnc : nodeAt fs (resolve cfg.cwd (cachePath cfg r.urlPath)).path = none)
    (hsrc : osOpen cfg.cwd fs r.urlPath = .error .notExist) :
    imageHandler lib cfg fs r = (.text 404 "File not found\n", fs) := by
  unfold imageHandler
  rw [osStat_cachePath, hnc]
  simp [cacheMiss, hsrc, httpError]

theorem missing_source_not_found_witness :
    imageHandler sampleLib defaultConfig fsSources ⟨"/nothing.jpg", []⟩
      = (.text 404 "File not found\n", fsSources) :=
  missing_source_not_found sampleLib defaultConfig fsSources ⟨"/nothing.jpg", []⟩
    (by decide) (by decide)

/-- C6 as stated fails: no file exists at `/photo.jpg`, but its cache entry does, and the
response is status 200 with the cached bytes instead of 404. -/
theorem missing_source_cached_is_served :
    osOpen defaultConfig.cwd fsCachedOnly "/photo.jpg" = .error .notExist ∧
      imageHandler sampleLib defaultConfig fsCachedOnly ⟨"/photo.jpg", []⟩
        = (.file "image/webp" webpBytes, fsCachedOnly) := by
  decide

/-- C7 (amended): for every resource path with nothing stored at the cache key whose
source opens, whose first read succeeds (a regular file that is not empty) and whose
sniffed type is neither JPEG, PNG nor WebP, `imageHandler` answers 400
`Unsupported file type` and leaves the file system unchanged. -/
theorem unsupported_type_rejected {Img : Type} (lib : Lib Img) (cfg : Config) (fs : FS)
    (r : Request) (file : Handle) (buffer : Bytes)
    (hnc : nodeAt fs (resolve cfg.cwd (cachePath cfg r.urlPath)).path = none)
    (hsrc : osOpen cfg.cwd fs r.urlPath = .ok file)
    (hbuf : fileRead file 512 = some buffer)
    (hj : containsSub (lib.detectContentType buffer) "jpeg" = false)
    (hp : containsSub (lib.detectContentType buffer) "png" = false)
    (hw : hasPrefix (lib.detectContentType buffer) "image/webp" = false) :
    imageHandler lib cfg fs r = (.text 400 "Unsupported file type\n", fs) := by
  unfold imageHandler
  rw [osStat_cachePath, hnc]
  simp [cacheMiss, hsrc, hbuf, dispatch, hj, hp, hw, httpError]

theorem unsupported_type_rejected_witness :
    imageHandler sampleLib defaultConfig fsSources ⟨"/notes.txt", []⟩
      = (.text 400 "Unsupported file type\n", fsSources) :=
  unsupported_type_rejected sampleLib defaultConfig fsSources ⟨"/notes.txt", []⟩
    (.file textBytes) (textBytes ++ List.replicate 506 0)
    (by decide) (by decide) (by rfl) (by rfl) (by rfl) (by rfl)

/-- C7 as stated fails: `/empty.txt` has no cache entry, exists, opens and is neither
JPEG, PNG nor WebP, yet the answer is 500 `Error reading file`, because the first read
of an empty file returns end of file. -/
theorem unsupported_empty_file_is_read_error :
    nodeAt fsSources (resolve defaultConfig.cwd (cachePath defaultConfig "/empty.txt")).path
        = none ∧
      osOpen defaultConfig.cwd fsSources "/empty.txt" = .ok (.file []) ∧
      imageHandler sampleLib defaultConfig fsSources ⟨"/empty.txt", []⟩
        = (.text 500 "Error reading file\n", fsSources) := by
  decide

/-- C8 (amended): on a cache miss every failure of `os.Open`, permission denied
included, is answered with 404 `File not found`, the same response as for a file that
does not exist; 500 `Error reading file` is the answer when the source opens but its
first read fails. Neither case changes the file system. -/
theorem open_failure_is_not_found {Img : Type} (lib : Lib Img) (cfg : Config) (fs : FS)
    (r : Request)
    (hnc : nodeAt fs (resolve cfg.cwd (cachePath cfg r.urlPath)).path = none) :
    (∀ e, osOpen cfg.cwd fs r.urlPath = .error e →
        imageHandler lib cfg fs r = (.text 404 "File not found\n", fs)) ∧
      (∀ file, osOpen cfg.cwd fs r.urlPath = .ok file → fileRead file 512 = none →
        imageHandler lib cfg fs r = (.text 500 "Error reading file\n", fs)) := by
  constructor
  · intro e he
    unfold imageHandler
    rw [osStat_cachePath, hnc]
    simp [cacheMiss, he, httpError]
  · intro file hf hr
    unfold imageHandler
    rw [osStat_cachePath, hnc]
    simp [cacheMiss, hf, hr, httpError]

theorem open_failure_is_not_found_witness :
    imageHandler sampleLib defaultConfig fsSources ⟨"/secret.jpg", []⟩
      = (.text 404 "File not found\n", fsSources) :=
  (open_failure_is_not_found sampleLib defaultConfig fsSources ⟨"/secret.jpg", []⟩
    (by decide)).1 .permission (by decide)

/-- C8 as stated fails: `/secret.jpg` exists and may not be read; on the cache miss the
answer is 404, not 500, and equals the answer for a path where nothing exists. -/
theorem unreadable_source_answers_404 :
    nodeAt fsSources ["secret.jpg"] = some (.file jpegBytes false true) ∧
      osOpen defaultConfig.cwd fsSources "/secret.jpg" = .error .permission ∧
      (imageHandler sampleLib defaultConfig fsSources ⟨"/secret.jpg", []⟩).1
        = .text 404 "File not found\n" ∧
      (imageHandler sampleLib defaultConfig fsSources ⟨"/secret.jpg", []⟩).1
        = (imageHandler sampleLib defaultConfig fsSources ⟨"/nothing.jpg", []⟩).1 := by
  decide

/-! ## Claims on the cache key and on `cacheClearHandler` -/

/-- C9: for a fixed configuration the cache key of a resource path is exactly
cache folder, then the path, then `.webp`, and the mapping is injective: distinct
resource paths have distinct cache keys. -/
theorem cachePath_injective (cfg : Config) :
    (∀ p, cachePath cfg p = cfg.cacheFolder ++ p ++ ".webp") ∧
      (∀ p q, p ≠ q → cachePath cfg p ≠ cachePath cfg q) := by
  refine ⟨fun _ => rfl, ?_⟩
  intro p q hpq h
  apply hpq
  have hd := congrArg String.data h
  rw [cachePath_data, cachePath_data] at hd
  have h1 := List.append_cancel_right hd
  have h2 := List.append_cancel_left h1
  exact String.ext h2

theorem cachePath_injective_witness :
    cachePath defaultConfig "/a.jpg" ≠ cachePath defaultConfig "/b.jpg" :=
  (cachePath_injective defaultConfig).2 "/a.jpg" "/b.jpg" (by decide)

/-- A query without the key yields the empty string. -/
theorem queryGet_absent (query : List (String × String)) (key : String)
    (h : ∀ e ∈ query, e.1 ≠ key) : queryGet query key = "" := by
  induction query with
  | nil => rfl
  | cons e rest ih =>
    obtain ⟨k, v⟩ := e
    have hk : k ≠ key := h (k, v) (by simp)
    simp only [queryGet, hk, if_false]
    exact ih (fun e he => h e (by simp [he]))

/-- C5 (amended): for every request whose `key` query value, read as the empty string
when the key is absent, differs from the configured secret, `cacheClearHandler` answers
403 `Invalid cache clear key` and the file system is unchanged, so every cache entry is
still there with the same contents; in particular a request without a key is forbidden
whenever the configured secret is not the empty string. -/
theorem wrong_key_forbidden (cfg : Config) (fs : FS) (r : Request) :
    (queryGet r.query "key" ≠ cfg.cacheClearKey →
        cacheClearHandler cfg fs r = (.text 403 "Invalid cache clear key\n", fs)) ∧
      ((∀ e ∈ r.query, e.1 ≠ "key") → cfg.cacheClearKey ≠ "" →
        cacheClearHandler cfg fs r = (.text 403 "Invalid cache clear key\n", fs)) := by
  have main : queryGet r.query "key" ≠ cfg.cacheClearKey →
      cacheClearHandler cfg fs r = (.text 403 "Invalid cache clear key\n", fs) := by
    intro h
    simp [cacheClearHandler, h, httpError]
  refine ⟨main, fun habs hne => main ?_⟩
  rw [queryGet_absent r.query "key" habs]
  exact fun e => hne e.symm

theorem wrong_key_forbidden_witness :
    cacheClearHandler defaultConfig fsCachedOnly ⟨"/clearcache", [("key", "wrong")]⟩
        = (.text 403 "Invalid cache clear key\n", fsCachedOnly) ∧
      cacheClearHandler defaultConfig fsCachedOnly ⟨"/clearcache", []⟩
        = (.text 403 "Invalid cache clear key\n", fsCachedOnly) :=
  ⟨(wrong_key_forbidden defaultConfig fsCachedOnly ⟨"/clearcache", [("key", "wrong")]⟩).1
      (by decide),
    (wrong_key_forbidden defaultConfig fsCachedOnly ⟨"/clearcache", []⟩).2
      (by decide) (by decide)⟩

/-- C5 as stated fails: with the secret configured as the empty string a request without
a key is not forbidden; it passes the comparison of line 95, the cache root is deleted
and the answer is 200, so the cache entry that existed before is gone. -/
theorem absent_key_matches_empty_secret :
    queryGet ([] : List (String × String)) "key" = emptyKeyConfig.cacheClearKey ∧
      nodeAt fsCachedOnly ["srv", "cache", "photo.jpg.webp"]
        = some (.file webpBytes true true) ∧
      cacheClearHandler emptyKeyConfig fsCachedOnly ⟨"/clearcache", []⟩
        = (.text 200 "Cache cleared successfully", [([], .dir true), (["srv"], .dir true)]) ∧
      nodeAt (cacheClearHandler emptyKeyConfig fsCachedOnly ⟨"/clearcache", []⟩).2
        ["srv", "cache", "photo.jpg.webp"] = none := by
  decide

/-! ## Lemmas on the cache write -/

theorem nodeAt_cons_self (fs : FS) (p : Path) (n : Node) : nodeAt ((p, n) :: fs) p = some n := by
  simp [nodeAt]

theorem nodeAt_cons_ne (fs : FS) (p q : Path) (n : Node) (h : p ≠ q) :
    nodeAt ((p, n) :: fs) q = nodeAt fs q := by
  simp [nodeAt, h]

/-- Rewriting the nodes stored at one path changes the lookup at that path only. -/
theorem nodeAt_map (g : Node → Node) (p : Path) (fs : FS) (q : Path) :
    nodeAt (fs.map (fun e => if e.1 = p then (e.1, g e.2) else e)) q =
      if q = p then (nodeAt fs q).map g else nodeAt fs q := by
  induction fs with
  | nil => simp [nodeAt]
  | cons e fs ih =>
    obtain ⟨k, n⟩ := e
    have hd : (if (k, n).1 = p then ((k, n).1, g (k, n).2) else (k, n))
        = (k, if k = p then g n else n) := by
      split <;> rfl
    rw [List.map_cons, hd]
    simp only [nodeAt]
    rw [ih]
    by_cases hq : k = q
    · subst hq
      by_cases hk : k = p <;> simp [hk]
    · simp [hq]

/-- The lookup after `os.MkdirAll` differs only where a directory was created. -/
theorem nodeAt_mkdirAllFrom (segs : List String) (fs : FS) (cur q : Path) :
    nodeAt (mkdirAllFrom fs cur segs).1 q = nodeAt fs q ∨
      (nodeAt fs q = none ∧ nodeAt (mkdirAllFrom fs cur segs).1 q = some (.dir true)) := by
  induction segs generalizing fs cur with
  | nil => left; rfl
  | cons seg rest ih =>
    unfold mkdirAllFrom
    cases hn : nodeAt fs (cur ++ [seg]) with
    | some n =>
      cases n with
      | dir w => simpa using ih fs (cur ++ [seg])
      | file c r w => left; rfl
    | none =>
      by_cases hw : dirWritable fs cur = true
      · simp only [hw, if_true]
        rcases ih ((cur ++ [seg], .dir true) :: fs) (cur ++ [seg]) with h | ⟨h1, h2⟩
        · by_cases hq : cur ++ [seg] = q
          · right; subst hq
            rw [h, nodeAt_cons_self]; exact ⟨hn, rfl⟩
          · left; rw [h, nodeAt_cons_ne _ _ _ _ hq]
        · by_cases hq : cur ++ [seg] = q
          · subst hq; rw [nodeAt_cons_self] at h1; cases h1
          · right; rw [nodeAt_cons_ne _ _ _ _ hq] at h1; exact ⟨h1, h2⟩
      · simp only [hw]; left; rfl

/-- A file created by `os.Create` where no regular file was stored is empty and may be
read and written. -/
theorem nodeAt_osCreate (cwd : Path) (fs fs2 : FS) (name : String)
    (hfile : ∀ c r w, nodeAt fs (resolve cwd name).path ≠ some (.file c r w))
    (hcr : osCreate cwd fs name = some fs2) :
    nodeAt fs2 (resolve cwd name).path = some (.file [] true true) := by
  unfold osCreate at hcr
  split at hcr
  · cases hcr
  · split at hcr
    · cases hcr
    · cases hn : nodeAt fs (resolve cwd name).path with
      | none =>
        rw [hn] at hcr
        simp only at hcr
        split at hcr
        · cases hcr; exact nodeAt_cons_self _ _ _
        · cases hcr
      | some n =>
        cases n with
        | dir w => rw [hn] at hcr; cases hcr
        | file c r w => exact absurd hn (hfile c r w)

/-- Bytes written through the open cache file end up in the file stored at its path. -/
theorem nodeAt_fileWrite (cwd : Path) (fs : FS) (name : String) (data c : Bytes) (r w : Bool)
    (h : nodeAt fs (resolve cwd name).path = some (.file c r w)) :
    nodeAt (fileWrite cwd fs name data) (resolve cwd name).path = some (.file (c ++ data) r w) := by
  have := nodeAt_map (fun n => match n with
      | .file c r w => .file (c ++ data) r w
      | .dir w => .dir w) (resolve cwd name).path fs (resolve cwd name).path
  have e : fileWrite cwd fs name data = fs.map (fun e =>
      if e.1 = (resolve cwd name).path then (e.1, (fun n => match n with
        | .file c r w => Node.file (c ++ data) r w
        | .dir w => Node.dir w) e.2) else e) := by
    unfold fileWrite
    congr 1
    funext e
    split
    · cases e.2 <;> rfl
    · rfl
  rw [e, this, h]
  simp

/-- The state left by lines 72 to 85: when the directory and the file can be created,
the cache file holds exactly what the encoder wrote, whether or not it succeeded. -/
theorem writeCache_spec {Img : Type} (lib : Lib Img) (cfg : Config) (fs : FS) (r : Request)
    (img : Img) (written : Bytes) (ok : Bool)
    (hnc : nodeAt fs (resolve cfg.cwd (cachePath cfg r.urlPath)).path = none)
    (hmk : (osMkdirAll cfg.cwd fs (filepathDir (cachePath cfg r.urlPath))).2 = true)
    (hcr : (osCreate cfg.cwd (osMkdirAll cfg.cwd fs (filepathDir (cachePath cfg r.urlPath))).1
      (cachePath cfg r.urlPath)).isSome = true)
    (henc : lib.webpEncode img cfg.quality = (written, ok)) :
    nodeAt (writeCache lib cfg fs r (some img)).2 (resolve cfg.cwd (cachePath cfg r.urlPath)).path
        = some (.file written true true) ∧
      (writeCache lib cfg fs r (some img)).1 =
        if ok then serveFile lib cfg.cwd (writeCache lib cfg fs r (some img)).2 r
          (some "image/webp") (cachePath cfg r.urlPath)
        else .text 500 "Error encoding image\n" := by
  cases hm : osMkdirAll cfg.cwd fs (filepathDir (cachePath cfg r.urlPath)) with
  | mk fs1 b =>
    rw [hm] at hmk hcr
    simp only at hmk hcr
    subst hmk
    cases hc : osCreate cfg.cwd fs1 (cachePath cfg r.urlPath) with
    | none => rw [hc] at hcr; cases hcr
    | some fs2 =>
      have hfs1 : ∀ c r' w, nodeAt fs1 (resolve cfg.cwd (cachePath cfg r.urlPath)).path
          ≠ some (.file c r' w) := by
        intro c r' w hh
        have := nodeAt_mkdirAllFrom
          (resolve cfg.cwd (filepathDir (cachePath cfg r.urlPath))).path fs []
          (resolve cfg.cwd (cachePath cfg r.urlPath)).path
        unfold osMkdirAll at hm
        rw [hm] at this
        simp only at this
        rw [hh, hnc] at this
        rcases this with h | ⟨_, h⟩ <;> cases h
      have h2 := nodeAt_osCreate cfg.cwd fs1 fs2 _ hfs1 hc
      have h3 := nodeAt_fileWrite cfg.cwd fs2 (cachePath cfg r.urlPath) written [] true true h2
      simp only [List.nil_append] at h3
      cases ok with
      | true => simp [writeCache, hm, hc, henc, h3]
      | false => simp [writeCache, hm, hc, henc, h3, httpError]

/-! ## Claims on the cache write -/

/-- C1 (amended): for every resource path without a `..` element that does not end in
`/index.html`, with nothing stored at the cache key, whose source opens as a regular file
sniffed as JPEG or PNG, and with decode, directory creation, file creation and encode all
succeeding, the first `imageHandler` call returns status 200 with type `image/webp` and
the encoder's output, that output is the contents of the cache file afterwards, and a
second call on the resulting state returns the identical response without changing the
state. -/
theorem second_resolve_identical {Img : Type} (lib : Lib Img) (cfg : Config) (fs : FS)
    (r : Request) (contents buffer : Bytes) (img : Img) (out : Bytes)
    (hdd : containsDotDot r.urlPath = false)
    (hix : hasSuffix r.urlPath "/index.html" = false)
    (hnc : nodeAt fs (resolve cfg.cwd (cachePath cfg r.urlPath)).path = none)
    (hsrc : osOpen cfg.cwd fs r.urlPath = .ok (.file contents))
    (hbuf : fileRead (.file contents) 512 = some buffer)
    (hdec : (containsSub (lib.detectContentType buffer) "jpeg" = true ∧
          lib.jpegDecode contents = some img) ∨
        (containsSub (lib.detectContentType buffer) "jpeg" = false ∧
          containsSub (lib.detectContentType buffer) "png" = true ∧
          lib.pngDecode contents = some img))
    (hmk : (osMkdirAll cfg.cwd fs (filepathDir (cachePath cfg r.urlPath))).2 = true)
    (hcr : (osCreate cfg.cwd (osMkdirAll cfg.cwd fs (filepathDir (cachePath cfg r.urlPath))).1
      (cachePath cfg r.urlPath)).isSome = true)
    (henc : lib.webpEncode img cfg.quality = (out, true)) :
    (imageHandler lib cfg fs r).1 = .file "image/webp" out ∧
      nodeAt (imageHandler lib cfg fs r).2 (resolve cfg.cwd (cachePath cfg r.urlPath)).path
        = some (.file out true true) ∧
      imageHandler lib cfg (imageHandler lib cfg fs r).2 r
        = (.file "image/webp" out, (imageHandler lib cfg fs r).2) := by
  rw [imageHandler_decoded lib cfg fs r contents buffer img hnc hsrc hbuf hdec]
  obtain ⟨hst, hresp⟩ := writeCache_spec lib cfg fs r img out true hnc hmk hcr henc
  refine ⟨?_, hst, imageHandler_hit lib cfg _ r out true hdd hix hst⟩
  rw [hresp, if_pos rfl]
  exact serveFile_cachePath lib cfg _ r _ out true hdd hix (Or.inr rfl) hst

theorem second_resolve_identical_witness :
    (imageHandler sampleLib defaultConfig fsJpegs ⟨"/photo.jpg", []⟩).1
        = .file "image/webp" ([0x52, 0x49, 0x46, 0x46] ++ jpegBytes) ∧
      nodeAt (imageHandler sampleLib defaultConfig fsJpegs ⟨"/photo.jpg", []⟩).2
          (resolve defaultConfig.cwd (cachePath defaultConfig "/photo.jpg")).path
        = some (.file ([0x52, 0x49, 0x46, 0x46] ++ jpegBytes) true true) ∧
      imageHandler sampleLib defaultConfig
          (imageHandler sampleLib defaultConfig fsJpegs ⟨"/photo.jpg", []⟩).2 ⟨"/photo.jpg", []⟩
        = (.file "image/webp" ([0x52, 0x49, 0x46, 0x46] ++ jpegBytes),
          (imageHandler sampleLib defaultConfig fsJpegs ⟨"/photo.jpg", []⟩).2) :=
  second_resolve_identical sampleLib defaultConfig fsJpegs ⟨"/photo.jpg", []⟩ jpegBytes
    (jpegBytes ++ List.replicate 506 0) jpegBytes ([0x52, 0x49, 0x46, 0x46] ++ jpegBytes)
    (by decide) (by decide) (by decide) (by decide) (by rfl) (Or.inl ⟨by rfl, by rfl⟩)
    (by decide) (by decide) (by rfl)

/-- C1 as stated fails: `/index.html` holds a valid JPEG, has no cache entry, and
decode, directory creation, file creation and encode succeed (the cache file is
written), yet both calls answer with a redirect instead of status 200 and the cache
file's bytes. -/
theorem second_resolve_index_redirects :
    nodeAt fsIndexJpeg (resolve defaultConfig.cwd (cachePath defaultConfig "/index.html")).path
        = none ∧
      osOpen defaultConfig.cwd fsIndexJpeg "/index.html" = .ok (.file jpegBytes) ∧
      nodeAt (imageHandler sampleLib defaultConfig fsIndexJpeg ⟨"/index.html", []⟩).2
          (resolve defaultConfig.cwd (cachePath defaultConfig "/index.html")).path
        = some (.file ([0x52, 0x49, 0x46, 0x46] ++ jpegBytes) true true) ∧
      (imageHandler sampleLib defaultConfig fsIndexJpeg ⟨"/index.html", []⟩).1
        = .redirect "./" ∧
      (imageHandler sampleLib defaultConfig
          (imageHandler sampleLib defaultConfig fsIndexJpeg ⟨"/index.html", []⟩).2
          ⟨"/index.html", []⟩).1 = .redirect "./" := by
  decide

/-- C10 (amended): for every resource path with nothing stored at the cache key whose
source opens as a regular file sniffed as JPEG or PNG, where decode, directory creation
and file creation succeed but the encoder fails, `imageHandler` answers 500
`Error encoding image` and the cache file is left holding what the encoder had written;
when the path has no `..` element and does not end in `/index.html`, a later call on
that state returns those bytes with status 200 and type `image/webp` and changes
nothing, so nothing is encoded again. -/
theorem encode_failure_poisons_cache {Img : Type} (lib : Lib Img) (cfg : Config) (fs : FS)
    (r : Request) (contents buffer : Bytes) (img : Img) (written : Bytes)
    (hnc : nodeAt fs (resolve cfg.cwd (cachePath cfg r.urlPath)).path = none)
    (hsrc : osOpen cfg.cwd fs r.urlPath = .ok (.file contents))
    (hbuf : fileRead (.file contents) 512 = some buffer)
    (hdec : (containsSub (lib.detectContentType buffer) "jpeg" = true ∧
          lib.jpegDecode contents = some img) ∨
        (containsSub (lib.detectContentType buffer) "jpeg" = false ∧
          containsSub (lib.detectContentType buffer) "png" = true ∧
          lib.pngDecode contents = some img))
    (hmk : (osMkdirAll cfg.cwd fs (filepathDir (cachePath cfg r.urlPath))).2 = true)
    (hcr : (osCreate cfg.cwd (osMkdirAll cfg.cwd fs (filepathDir (cachePath cfg r.urlPath))).1
      (cachePath cfg r.urlPath)).isSome = true)
    (henc : lib.webpEncode img cfg.quality = (written, false)) :
    (imageHandler lib cfg fs r).1 = .text 500 "Error encoding image\n" ∧
      nodeAt (imageHandler lib cfg fs r).2 (resolve cfg.cwd (cachePath cfg r.urlPath)).path
        = some (.file written true true) ∧
      (containsDotDot r.urlPath = false → hasSuffix r.urlPath "/index.html" = false →
        imageHandler lib cfg (imageHandler lib cfg fs r).2 r
          = (.file "image/webp" written, (imageHandler lib cfg fs r).2)) := by
  rw [imageHandler_decoded lib cfg fs r contents buffer img hnc hsrc hbuf hdec]
  obtain ⟨hst, hresp⟩ := writeCache_spec lib cfg fs r img written false hnc hmk hcr henc
  refine ⟨?_, hst, fun hdd hix => imageHandler_hit lib cfg _ r written true hdd hix hst⟩
  rw [hresp]
  rfl

theorem encode_failure_poisons_cache_witness :
    (imageHandler sampleLib defaultConfig fsJpegs ⟨"/big.jpg", []⟩).1
        = .text 500 "Error encoding image\n" ∧
      nodeAt (imageHandler sampleLib defaultConfig fsJpegs ⟨"/big.jpg", []⟩).2
          (resolve defaultConfig.cwd (cachePath defaultConfig "/big.jpg")).path
        = some (.file [0x52, 0x49, 0x46, 0x46] true true) ∧
      imageHandler sampleLib defaultConfig
          (imageHandler sampleLib defaultConfig fsJpegs ⟨"/big.jpg", []⟩).2 ⟨"/big.jpg", []⟩
        = (.file "image/webp" [0x52, 0x49, 0x46, 0x46],
          (imageHandler sampleLib defaultConfig fsJpegs ⟨"/big.jpg", []⟩).2) :=
  have h := encode_failure_poisons_cache sampleLib defaultConfig fsJpegs ⟨"/big.jpg", []⟩
    bigJpegBytes (bigJpegBytes ++ List.replicate 502 0) bigJpegBytes [0x52, 0x49, 0x46, 0x46]
    (by decide) (by decide) (by rfl) (Or.inl ⟨by rfl, by rfl⟩) (by decide) (by decide) (by rfl)
  ⟨h.1, h.2.1, h.2.2 (by decide) (by decide)⟩

/-- C10 as stated fails: for the JPEG source `/a/index.html` the encoder fails and the
truncated file stays at the cache key, yet the later call does not return that file's
bytes: it answers with a redirect. -/
theorem encode_failure_index_redirects :
    (imageHandler sampleLib defaultConfig fsIndexJpeg ⟨"/a/index.html", []⟩).1
        = .text 500 "Error encoding image\n" ∧
      nodeAt (imageHandler sampleLib defaultConfig fsIndexJpeg ⟨"/a/index.html", []⟩).2
          (resolve defaultConfig.cwd (cachePath defaultConfig "/a/index.html")).path
        = some (.file [0x52, 0x49, 0x46, 0x46] true true) ∧
      (imageHandler sampleLib defaultConfig
          (imageHandler sampleLib defaultConfig fsIndexJpeg ⟨"/a/index.html", []⟩).2
          ⟨"/a/index.html", []⟩).1 = .redirect "./" := by
  decide

/-! ## Lemmas on the cache clear -/

/-- Without a `..` segment, lexical resolution only descends. -/
theorem foldl_stepPath_prefix (segs : List (List Char)) (acc : Path)
    (h : ['.', '.'] ∉ segs) : acc <+: segs.foldl stepPath acc := by
  induction segs generalizing acc with
  | nil => exact List.prefix_refl _
  | cons s rest ih =>
    have hs : s ≠ ['.', '.'] := fun e => h (by simp [e])
    have hr : ['.', '.'] ∉ rest := fun e => h (by simp [e])
    rw [List.foldl_cons]
    refine List.IsPrefix.trans ?_ (ih (stepPath acc s) hr)
    unfold stepPath
    by_cases h0 : s = [] ∨ s = ['.']
    · rw [if_pos h0]
    · rw [if_neg h0, if_neg hs]; exact List.prefix_append _ _

/-- The cache key of a rooted resource path without `..` segments lies below the cache
folder. -/
theorem cachePath_below_cacheFolder (cwd : Path) (cfg : Config) (p : String)
    (hcf : cfg.cacheFolder ≠ "")
    (hp : p.data.head? = some '/')
    (hdd : ['.', '.'] ∉ segments isSlash p.data) :
    (resolve cwd cfg.cacheFolder).path <+: (resolve cwd (cachePath cfg p)).path := by
  obtain ⟨rest, hrest⟩ : ∃ rest, p.data = '/' :: rest := by
    cases hd : p.data with
    | nil => rw [hd] at hp; cases hp
    | cons c rest => rw [hd] at hp; simp at hp; exact ⟨rest, by rw [hp]⟩
  have hcf2 : cfg.cacheFolder.data ≠ [] := fun e => hcf (String.ext e)
  have hdata : (cachePath cfg p).data
      = cfg.cacheFolder.data ++ '/' :: (rest ++ ['.', 'w', 'e', 'b', 'p']) := by
    rw [cachePath_data, hrest]; simp
  have hhead : (cachePath cfg p).data.head? = cfg.cacheFolder.data.head? := by
    rw [hdata]
    cases hc : cfg.cacheFolder.data with
    | nil => exact absurd hc hcf2
    | cons c cs => rfl
  obtain ⟨pre, t, h1, h2⟩ := segments_append_tail isSlash _ webp_slashFree rest
  have hnodd : ['.', '.'] ∉ pre ++ [t ++ ['.', 'w', 'e', 'b', 'p']] := by
    intro hm
    rcases List.mem_append.mp hm with hm | hm
    · apply hdd
      rw [hrest, segments_cons]
      simp [isSlash, h1, hm]
    · simp only [List.mem_singleton] at hm
      have := congrArg List.length hm
      simp at this
  unfold resolve
  simp only [hhead]
  rw [hdata, segments_append_sep isSlash '/' (by decide), List.foldl_append, h2]
  exact foldl_stepPath_prefix _ _ hnodd

/-- Filtering on the key keeps or drops a lookup as a whole. -/
theorem nodeAt_filter (keep : Path → Bool) (fs : FS) (q : Path) :
    nodeAt (fs.filter (fun e => keep e.1)) q = if keep q then nodeAt fs q else none := by
  induction fs with
  | nil => simp [nodeAt]
  | cons e fs ih =>
    obtain ⟨k, n⟩ := e
    by_cases hk : keep k = true
    · rw [List.filter_cons_of_pos (by simpa using hk)]
      simp only [nodeAt, ih]
      by_cases hq : k = q
      · subst hq; simp [hk]
      · simp [hq]
    · rw [List.filter_cons_of_neg (by simpa using hk)]
      simp only [nodeAt, ih]
      by_cases hq : k = q
      · subst hq; simp [hk]
      · simp [hq]

/-- After a successful `os.RemoveAll` on a non-empty name nothing is stored at or below
the path it names. -/
theorem nodeAt_osRemoveAll (cwd : Path) (fs : FS) (name : String) (hne : name ≠ "")
    (hok : (osRemoveAll cwd fs name).2 = true) (q : Path)
    (hq : (resolve cwd name).path <+: q) :
    nodeAt (osRemoveAll cwd fs name).1 q = none := by
  unfold osRemoveAll at hok ⊢
  rw [if_neg hne] at hok ⊢
  split at hok
  · cases hok
  · rename_i hdot
    rw [if_neg hdot]
    simp only [Bool.not_eq_true', List.any_eq_false, Bool.and_eq_true, not_and,
      Bool.not_eq_true] at hok
    rw [nodeAt_filter (fun k => survives fs (resolve cwd name).path k)]
    have hsv : survives fs (resolve cwd name).path q = false := by
      unfold survives
      have hpre : (resolve cwd name).path.isPrefixOf q = true :=
        List.isPrefixOf_iff_prefix.mpr hq
      simp only [hpre, Bool.not_true, Bool.false_or, List.any_eq_false, Bool.and_eq_true,
        not_and, Bool.not_eq_true]
      intro e he hr
      exact hok e he hr.2
    simp [hsv]

/-- C4 (amended): with a non-empty cache folder (`main` exits otherwise), the configured
key and a successful deletion, `cacheClearHandler` answers 200
`Cache cleared successfully` and nothing is stored at or below the cache root afterwards;
consequently, for every resource path that starts with a slash and has no `..` segment,
the next `imageHandler` call does not take the cache-hit branch but runs the cache-miss
path on the source, and when that source is a regular file sniffed as JPEG or PNG with
decode, directory creation and file creation succeeding, it encodes again and the cache
file holds the encoder's new output. -/
theorem clear_then_resolve_misses (cfg : Config) (fs : FS) (r : Request)
    (hcf : cfg.cacheFolder ≠ "")
    (hkey : queryGet r.query "key" = cfg.cacheClearKey)
    (hok : (osRemoveAll cfg.cwd fs cfg.cacheFolder).2 = true) :
    (cacheClearHandler cfg fs r).1 = .text 200 "Cache cleared successfully" ∧
      (∀ q, (resolve cfg.cwd cfg.cacheFolder).path <+: q →
        nodeAt (cacheClearHandler cfg fs r).2 q = none) ∧
      (∀ (Img : Type) (lib : Lib Img) (r2 : Request),
        r2.urlPath.data.head? = some '/' →
        ['.', '.'] ∉ segments isSlash r2.urlPath.data →
        imageHandler lib cfg (cacheClearHandler cfg fs r).2 r2
            = cacheMiss lib cfg (cacheClearHandler cfg fs r).2 r2 ∧
          ∀ (contents buffer : Bytes) (img : Img) (out : Bytes) (ok : Bool),
            osOpen cfg.cwd (cacheClearHandler cfg fs r).2 r2.urlPath = .ok (.file contents) →
            fileRead (.file contents) 512 = some buffer →
            ((containsSub (lib.detectContentType buffer) "jpeg" = true ∧
                lib.jpegDecode contents = some img) ∨
              (containsSub (lib.detectContentType buffer) "jpeg" = false ∧
                containsSub (lib.detectContentType buffer) "png" = true ∧
                lib.pngDecode contents = some img)) →
            (osMkdirAll cfg.cwd (cacheClearHandler cfg fs r).2
              (filepathDir (cachePath cfg r2.urlPath))).2 = true →
            (osCreate cfg.cwd (osMkdirAll cfg.cwd (cacheClearHandler cfg fs r).2
              (filepathDir (cachePath cfg r2.urlPath))).1
              (cachePath cfg r2.urlPath)).isSome = true →
            lib.webpEncode img cfg.quality = (out, ok) →
            nodeAt (imageHandler lib cfg (cacheClearHandler cfg fs r).2 r2).2
                (resolve cfg.cwd (cachePath cfg r2.urlPath)).path
              = some (.file out true true)) := by
  have hst : cacheClearHandler cfg fs r
      = (.text 200 "Cache cleared successfully", (osRemoveAll cfg.cwd fs cfg.cacheFolder).1) := by
    unfold cacheClearHandler
    rw [if_neg (by simp [hkey])]
    cases h : osRemoveAll cfg.cwd fs cfg.cacheFolder with
    | mk fs1 b =>
      rw [h] at hok
      simp only at hok
      subst hok
      rfl
  rw [hst]
  refine ⟨rfl, fun q hq => nodeAt_osRemoveAll cfg.cwd fs _ hcf hok q hq, ?_⟩
  intro Img lib r2 hp hdd
  have hnc : nodeAt (osRemoveAll cfg.cwd fs cfg.cacheFolder).1
      (resolve cfg.cwd (cachePath cfg r2.urlPath)).path = none :=
    nodeAt_osRemoveAll cfg.cwd fs _ hcf hok _
      (cachePath_below_cacheFolder cfg.cwd cfg r2.urlPath hcf hp hdd)
  constructor
  · unfold imageHandler
    rw [osStat_cachePath, hnc]
    simp
  · intro contents buffer img out ok hsrc hbuf hdec hmk hcr henc
    rw [imageHandler_decoded lib cfg _ r2 contents buffer img hnc hsrc hbuf hdec]
    exact (writeCache_spec lib cfg _ r2 img out ok hnc hmk hcr henc).1

theorem clear_then_resolve_misses_witness :
    (cacheClearHandler defaultConfig fsCachedPhoto clearRequest).1
        = .text 200 "Cache cleared successfully" ∧
      nodeAt (cacheClearHandler defaultConfig fsCachedPhoto clearRequest).2
          ["srv", "cache", "photo.jpg.webp"] = none ∧
      imageHandler sampleLib defaultConfig
          (cacheClearHandler defaultConfig fsCachedPhoto clearRequest).2 ⟨"/photo.jpg", []⟩
        = cacheMiss sampleLib defaultConfig
          (cacheClearHandler defaultConfig fsCachedPhoto clearRequest).2 ⟨"/photo.jpg", []⟩ ∧
      nodeAt (imageHandler sampleLib defaultConfig
          (cacheClearHandler defaultConfig fsCachedPhoto clearRequest).2 ⟨"/photo.jpg", []⟩).2
          (resolve defaultConfig.cwd (cachePath defaultConfig "/photo.jpg")).path
        = some (.file ([0x52, 0x49, 0x46, 0x46] ++ jpegBytes) true true) :=
  have h := clear_then_resolve_misses defaultConfig fsCachedPhoto clearRequest
    (by decide) (by decide) (by decide)
  have h3 := h.2.2 Bytes sampleLib ⟨"/photo.jpg", []⟩ (by decide) (by decide)
  ⟨h.1, h.2.1 ["srv", "cache", "photo.jpg.webp"] (by decide), h3.1,
    h3.2 jpegBytes (jpegBytes ++ List.replicate 506 0) jpegBytes
      ([0x52, 0x49, 0x46, 0x46] ++ jpegBytes) true (by decide) (by rfl)
      (Or.inl ⟨by rfl, by rfl⟩) (by decide) (by decide) (by rfl)⟩

/-- C4 as stated fails: `/photo.jpg` had a cache entry before the clear, the clear with
the configured key succeeds, yet the next call for that path performs no decode and no
encode: the source is gone, the answer is 404 and no cache entry is written. -/
theorem clear_then_resolve_without_source :
    nodeAt fsCachedOnly (resolve defaultConfig.cwd (cachePath defaultConfig "/photo.jpg")).path
        = some (.file webpBytes true true) ∧
      cacheClearHandler defaultConfig fsCachedOnly clearRequest
        = (.text 200 "Cache cleared successfully", [([], .dir true), (["srv"], .dir true)]) ∧
      imageHandler sampleLib defaultConfig [([], .dir true), (["srv"], .dir true)]
          ⟨"/photo.jpg", []⟩
        = (.text 404 "File not found\n", [([], .dir true), (["srv"], .dir true)]) := by
  decide

end Nimage
